import Mathlib

/-!
Shallow embedding of the kanji stroke-practice engine (src/app.py) and proofs
about it.

The program resamples polylines to a fixed number of arc-length-equidistant
points (`resample_path`), samples reference SVG strokes at uniform path
parameters (`fetch_kanji_data`), measures stroke dissimilarity as the mean of
per-index Euclidean distances, and drives a progressive "snap" state machine
over Streamlit session state (`step`, `locked_objects`, `canvas_key`).

Real-valued numpy computations are modelled over `ℝ`; numpy arrays of shape
(k, 2) are modelled as `List (ℝ × ℝ)`.  Code that can raise (indexing an
empty array) is modelled with `Option`.
-/

namespace Kanji

open scoped Classical

/-- A planar point: one row of a numpy array of shape (k, 2). -/
abbrev Point : Type := ℝ × ℝ

/-- Configuration constant `KANJI_VG_SIZE = 109` (src/app.py line 10). -/
def KANJI_VG_SIZE : ℝ := 109

/-- Configuration constant `CANVAS_SIZE = 400` (src/app.py line 11). -/
def CANVAS_SIZE : ℝ := 400

/-- Configuration constant `SNAP_THRESHOLD = 45` (src/app.py line 12). -/
def SNAP_THRESHOLD : ℝ := 45

/-- Configuration constant `NUM_POINTS = 20` (src/app.py line 13). -/
def NUM_POINTS : ℕ := 20

/-- Euclidean length of the difference of two consecutive points: one entry of
`np.sqrt(np.sum(np.diff(path_arr, axis=0) ** 2, axis=1))` (src/app.py line 64). -/
noncomputable def euclid (p q : Point) : ℝ :=
Real.sqrt ((q.1 - p.1) ^ 2 + (q.2 - p.2) ^ 2)

/-- The list of consecutive-point distances of a polyline
(`dists` at src/app.py line 64). -/
noncomputable def dists : List Point → List ℝ
  | [] => []
  | [_] => []
  | p :: q :: rest => euclid p q :: dists (q :: rest)

/-- `cum_dists = np.insert(np.cumsum(dists), 0, 0)` (src/app.py line 65):
cumulative arc length, starting at 0, one entry per point of the polyline. -/
noncomputable def cum_dists (path_arr : List Point) : List ℝ :=
List.scanl (fun a b => a + b) 0 (dists path_arr)

/-- `np.linspace(a, b, n)`: `n` evenly spaced samples from `a` to `b`,
both endpoints included (for `n = 1` numpy returns `[a]`, which the formula
also yields since `0 * (b - a) / 0 = 0` in Lean). -/
noncomputable def linspace (a b : ℝ) (n : ℕ) : List ℝ :=
(List.range n).map (fun i : ℕ => a + (i : ℝ) * (b - a) / ((n : ℝ) - 1))

/-- `np.interp(x, xp, fp)` for increasing knot positions `xp`: constant
extrapolation outside the knot range, linear interpolation between
consecutive knots.  (The program only ever calls it with strictly increasing
`xp` and `fp` of the same length.) -/
noncomputable def interp (x : ℝ) : List ℝ → List ℝ → ℝ
  | x0 :: x1 :: xp, f0 :: f1 :: fp =>
    if x ≤ x0 then f0
    else if x ≤ x1 then f0 + (x - x0) * (f1 - f0) / (x1 - x0)
    else interp x (x1 :: xp) (f1 :: fp)
  | _ :: _, f0 :: _ => f0
  | _, _ => 0

/-- `resample_path(path_arr, num_points)` (src/app.py lines 58-76).
Indexing `path_arr[0]` on an empty array raises in Python; that failure is
modelled as `none`. -/
noncomputable def resample_path (path_arr : List Point) (num_points : ℕ) :
    Option (List Point) :=
match path_arr with
| [] => none
| p :: rest =>
  if (p :: rest).length < 2 then some (List.replicate num_points p)
  else
    let cd := cum_dists (p :: rest)
    let total_len := cd.getLastD 0
    if total_len = 0 then some (List.replicate num_points p)
    else
      some ((linspace 0 total_len num_points).map (fun t =>
        (interp t cd ((p :: rest).map Prod.fst),
         interp t cd ((p :: rest).map Prod.snd))))

/-- `np.mean` over a one-dimensional array. -/
noncomputable def np_mean (xs : List ℝ) : ℝ := xs.sum / xs.length

/-- `dist = np.mean(np.linalg.norm(u_res - target_stroke, axis=1))`
(src/app.py line 201): mean of the per-index Euclidean distances of two
equal-length strokes. -/
noncomputable def stroke_dist (u_res target_stroke : List Point) : ℝ :=
np_mean (List.zipWith euclid u_res target_stroke)

/-- One segment of a parsed SVG path (`svgpathtools.parse_path`): a line
segment or a cubic Bézier segment (KanjiVG strokes are cubics). -/
inductive Seg : Type
  | line (p q : Point)
  | cubic (p c1 c2 q : Point)

/-- One coordinate of a cubic Bézier in Bernstein form, as computed by
`svgpathtools.CubicBezier.point`:
`start*(1-t)**3 + 3*control1*(1-t)**2*t + 3*control2*(1-t)*t**2 + end*t**3`. -/
noncomputable def bez (a b c d t : ℝ) : ℝ :=
(1 - t) ^ 3 * a + 3 * (1 - t) ^ 2 * t * b + 3 * (1 - t) * t ^ 2 * c + t ^ 3 * d

/-- Derivative in `t` of one coordinate of a cubic Bézier. -/
noncomputable def bezD (a b c d t : ℝ) : ℝ :=
3 * (1 - t) ^ 2 * (b - a) + 6 * (1 - t) * t * (c - b) + 3 * t ^ 2 * (d - c)

/-- A segment evaluated at its native parameter `t ∈ [0, 1]`: affine
interpolation for a line, the Bernstein polynomial for a cubic
(`Line.point` / `CubicBezier.point` of `svgpathtools`).  The native cubic
parameter is in general not proportional to arc length. -/
noncomputable def segPoint : Seg → ℝ → Point
  | Seg.line p q, t => (p.1 + t * (q.1 - p.1), p.2 + t * (q.2 - p.2))
  | Seg.cubic p c1 c2 q, t =>
      (bez p.1 c1.1 c2.1 q.1 t, bez p.2 c1.2 c2.2 q.2 t)

/-- The arc length of a segment (`Line.length` / `CubicBezier.length` of
`svgpathtools`): the Euclidean distance of the endpoints for a line, and the
integral of the speed for a cubic (which the library evaluates by numerical
quadrature; the model uses the exact integral it approximates). -/
noncomputable def segLength : Seg → ℝ
  | Seg.line p q => euclid p q
  | Seg.cubic p c1 c2 q =>
      ∫ t in (0 : ℝ)..1,
        Real.sqrt ((bezD p.1 c1.1 c2.1 q.1 t) ^ 2 + (bezD p.2 c1.2 c2.2 q.2 t) ^ 2)

/-- Total arc length of a path, used by `Path._calc_lengths` of
`svgpathtools` to normalize the per-segment lengths. -/
noncomputable def totalLength (segs : List Seg) : ℝ :=
(segs.map segLength).sum

/-- The segment-search loop of `Path.point` of `svgpathtools`: walking the
segments with an accumulated `segment_start`, each segment owns the parameter
sub-interval of width `segLength s / L` (its arc-length fraction), and the
owning segment is evaluated at the rescaled local parameter
`(pos - segment_start) / (segment_end - segment_start)`. -/
noncomputable def pathPointLoop (L : ℝ) : List Seg → ℝ → ℝ → Point
  | [], _, _ => (0, 0)
  | s :: rest, segment_start, pos =>
    if pos ≤ segment_start + segLength s / L then
      segPoint s ((pos - segment_start) /
        (segment_start + segLength s / L - segment_start))
    else pathPointLoop L rest (segment_start + segLength s / L) pos

/-- `Path.point(pos)` of `svgpathtools`: shortcuts at `pos = 0` and `pos = 1`
(first segment at 0, last segment at 1), otherwise the arc-length-fraction
segment search of `pathPointLoop`. -/
noncomputable def pathPoint (segs : List Seg) (pos : ℝ) : Point :=
match segs with
| [] => (0, 0)
| s :: rest =>
  if pos = 0 then segPoint s 0
  else if pos = 1 then segPoint (rest.getLastD s) 1
  else pathPointLoop (totalLength (s :: rest)) (s :: rest) 0 pos

/-- The reference sampling loop of `fetch_kanji_data` (src/app.py lines 43-49):
`NUM_POINTS` samples of the parsed path at `t = i / (NUM_POINTS - 1)`. -/
noncomputable def fetch_resample (segs : List Seg) : List Point :=
(List.range NUM_POINTS).map
  (fun i : ℕ => pathPoint segs ((i : ℝ) / ((NUM_POINTS : ℝ) - 1)))

/-- The start point of a segment. -/
def segStart : Seg → Point
  | Seg.line p _ => p
  | Seg.cubic p _ _ _ => p

/-- The end point of a segment. -/
def segEnd : Seg → Point
  | Seg.line _ q => q
  | Seg.cubic _ _ _ q => q

/-- The polyline through the segment endpoints: the first segment's start
point followed by every segment's end point. -/
def polyline : List Seg → List Point
  | [] => []
  | s :: rest => segStart s :: segEnd s :: rest.map segEnd

/-- The Fabric.js object produced by `svg_to_fabric_json` (src/app.py
lines 78-96); the `path` field keeps the stroke geometry that the JSON
serializes. -/
structure FabricObj where
  objType : String
  originX : String
  originY : String
  left : ℝ
  top : ℝ
  fill : Option String
  stroke : String
  strokeWidth : ℝ
  strokeLineCap : String
  strokeLineJoin : String
  path : List Seg
  scaleX : ℝ
  scaleY : ℝ
  selectable : Bool

/-- `svg_to_fabric_json(svg_path_str, color)` (src/app.py lines 78-96). -/
noncomputable def svg_to_fabric_json (svg_path : List Seg) (color : String) : FabricObj :=
{ objType := "path"
  originX := "left"
  originY := "top"
  left := 0
  top := 0
  fill := none
  stroke := color
  strokeWidth := 5
  strokeLineCap := "round"
  strokeLineJoin := "round"
  path := svg_path
  scaleX := CANVAS_SIZE / KANJI_VG_SIZE
  scaleY := CANVAS_SIZE / KANJI_VG_SIZE
  selectable := false }

/-- The reference data returned by `fetch_kanji_data`: the resampled strokes
(`ref_strokes`) and the raw per-stroke path geometry (`ref_svgs`). -/
structure Glyph where
  strokes : List (List Point)
  svgs : List (List Seg)

/-- The per-session Streamlit state (src/app.py lines 128-130):
`st.session_state.step`, `st.session_state.locked_objects`,
`st.session_state.canvas_key`. -/
structure SessionState where
  step : ℕ
  locked_objects : List FabricObj
  canvas_key : ℕ

/-- The user-visible outcome of a submission: the success toast of
src/app.py line 206 or the failure toast of line 221, which reports the
measured distance. -/
inductive Outcome : Type
  | accepted (i : ℕ)
  | rejected (i : ℕ) (d : ℝ)

/-- Initial session state (src/app.py lines 128-130). -/
def initState : SessionState := ⟨0, [], 0⟩

/-- The Reset button handler (src/app.py lines 137-141). -/
def resetState (s : SessionState) : SessionState :=
⟨0, [], s.canvas_key + 1⟩

/-- The grading logic run when a new stroke is detected on the canvas
(src/app.py lines 184-221).  `raw` is the already-rescaled point list from
`extract_last_stroke`, which never yields an empty list; the impossible
`none` branch of `resample_path` is modelled as leaving the state unchanged. -/
noncomputable def submitStroke (g : Glyph) (s : SessionState) (raw : List Point) :
    SessionState × Option Outcome :=
if s.step < g.strokes.length then
  match resample_path raw NUM_POINTS with
  | none => (s, none)
  | some u_res =>
    let target_stroke := g.strokes.getD s.step []
    let d := stroke_dist u_res target_stroke
    if d < SNAP_THRESHOLD then
      (⟨s.step + 1,
        s.locked_objects ++ [svg_to_fabric_json (g.svgs.getD s.step []) "#00aa00"],
        s.canvas_key + 1⟩,
       some (Outcome.accepted s.step))
    else (s, some (Outcome.rejected s.step d))
else (s, none)

/-- The session states reachable from initialization by any sequence of
stroke submissions and resets. -/
inductive Reachable (g : Glyph) : SessionState → Prop
  | init : Reachable g initState
  | reset (s : SessionState) : Reachable g s → Reachable g (resetState s)
  | submit (s : SessionState) (raw : List Point) :
      Reachable g s → Reachable g (submitStroke g s raw).1

/-- The record produced by one whole-glyph grading call. -/
structure GradeResult where
  score : ℤ
  feedback : String
  strokes : Option (List (List Point × List Point))

/-- Modelled from the spec: the whole-glyph GradingEngine is code of this
repository that is not present under src/ (src/app.py holds only the
progressive snap mode).  Following spec §4.3: the stroke-count check returns
score 0 with feedback "incorrect stroke count" and no per-stroke data;
otherwise each user/reference stroke pair is resampled to `NUM_POINTS`
points, scored positionally, and the distances are aggregated as
`max(0, round(100 - avgError * sensitivity))` with tiered feedback. -/
noncomputable def gradeGlyph (user reference : List (List Point)) (sensitivity : ℝ) :
    GradeResult :=
if user.length ≠ reference.length then
  ⟨0, "incorrect stroke count", none⟩
else
  let pairs := List.zipWith (fun u r =>
    ((resample_path u NUM_POINTS).getD [], (resample_path r NUM_POINTS).getD []))
    user reference
  let ds := pairs.map (fun p => stroke_dist p.1 p.2)
  let avgError := np_mean ds
  let finalScore := max 0 (round (100 - avgError * sensitivity))
  ⟨finalScore,
   if 80 ≤ finalScore then "great"
   else if 50 ≤ finalScore then "watch placement"
   else "try again, follow guide",
   some pairs⟩

/-! ## Helper lemmas -/

theorem linspace_length (a b : ℝ) (n : ℕ) : (linspace a b n).length = n := by
rw [linspace, List.length_map, List.length_range]

theorem euclid_self (p : Point) : euclid p p = 0 := by
simp [euclid]

theorem zipWith_euclid_replicate (n : ℕ) (p q : Point) :
    List.zipWith euclid (List.replicate n p) (List.replicate n q) =
      List.replicate n (euclid p q) := by
induction n with
| zero => rfl
| succ m ih => simp [List.replicate_succ, ih]

theorem stroke_dist_replicate (n : ℕ) (hn : n ≠ 0) (p q : Point) :
    stroke_dist (List.replicate n p) (List.replicate n q) = euclid p q := by
have hns : ((n : ℝ)) ≠ 0 := Nat.cast_ne_zero.mpr hn
rw [stroke_dist, zipWith_euclid_replicate, np_mean, List.sum_replicate,
  List.length_replicate, nsmul_eq_mul, mul_comm, mul_div_assoc, div_self hns,
  mul_one]

/-! ## C1: the invariant `lockedStrokes.length == targetIndex` -/

/-- Claim C1: for every reachable session state (after initialization, and
after any sequence of stroke submissions and resets), the number of locked
canonical strokes equals the index of the current target stroke. -/
theorem locked_length_eq_step (g : Glyph) (s : SessionState)
    (h : Reachable g s) : s.locked_objects.length = s.step := by
induction h with
| init => rfl
| reset s _ _ => rfl
| submit s raw _ ih =>
  unfold submitStroke
  split
  · split
    · simpa using ih
    · dsimp only
      split
      · simp [ih]
      · simpa using ih
  · simpa using ih

/-- Witness for C1 at the initial state of an empty glyph. -/
theorem locked_length_eq_step_witness :
    Reachable ⟨[], []⟩ initState ∧ initState.locked_objects.length = initState.step :=
⟨Reachable.init, locked_length_eq_step ⟨[], []⟩ initState Reachable.init⟩

/-! ## C2: an accepted submission snaps the canonical reference stroke -/

/-- Claim C2: in state `Awaiting(i)` with `i < totalStrokes`, a submission
whose resampled distance to reference stroke `i` is strictly below the
threshold advances the target index to `i + 1` (the session is `Complete`
exactly when that equals the stroke count) and appends the canonical
reference stroke geometry of index `i` — a function of the glyph only, not
of the user's drawn stroke — to the locked strokes. -/
theorem submit_accept_snaps_reference (g : Glyph) (s : SessionState)
    (raw u_res : List Point)
    (hstep : s.step < g.strokes.length)
    (hres : resample_path raw NUM_POINTS = some u_res)
    (hdist : stroke_dist u_res (g.strokes.getD s.step []) < SNAP_THRESHOLD) :
    submitStroke g s raw =
      (⟨s.step + 1,
        s.locked_objects ++ [svg_to_fabric_json (g.svgs.getD s.step []) "#00aa00"],
        s.canvas_key + 1⟩,
       some (Outcome.accepted s.step)) := by
unfold submitStroke
rw [if_pos hstep, hres]
dsimp only
rw [if_pos hdist]

/-- Witness for C2: a one-stroke glyph whose reference stroke is
`NUM_POINTS` copies of the origin, and a user stroke that resamples to the
same points, so the distance is 0 < 45. -/
theorem submit_accept_snaps_reference_witness :
    (SessionState.mk 0 [] 0).step <
      (Glyph.mk [List.replicate NUM_POINTS ((0 : ℝ), (0 : ℝ))]
        [[Seg.line ((0 : ℝ), (0 : ℝ)) ((0 : ℝ), (0 : ℝ))]]).strokes.length ∧
    resample_path [((0 : ℝ), (0 : ℝ))] NUM_POINTS =
      some (List.replicate NUM_POINTS ((0 : ℝ), (0 : ℝ))) ∧
    stroke_dist (List.replicate NUM_POINTS ((0 : ℝ), (0 : ℝ)))
        ((Glyph.mk [List.replicate NUM_POINTS ((0 : ℝ), (0 : ℝ))]
          [[Seg.line ((0 : ℝ), (0 : ℝ)) ((0 : ℝ), (0 : ℝ))]]).strokes.getD
          (SessionState.mk 0 [] 0).step [])
      < SNAP_THRESHOLD ∧
    submitStroke
        (Glyph.mk [List.replicate NUM_POINTS ((0 : ℝ), (0 : ℝ))]
          [[Seg.line ((0 : ℝ), (0 : ℝ)) ((0 : ℝ), (0 : ℝ))]])
        (SessionState.mk 0 [] 0) [((0 : ℝ), (0 : ℝ))] =
      (⟨(SessionState.mk 0 [] 0).step + 1,
        (SessionState.mk 0 [] 0).locked_objects ++
          [svg_to_fabric_json
            ((Glyph.mk [List.replicate NUM_POINTS ((0 : ℝ), (0 : ℝ))]
              [[Seg.line ((0 : ℝ), (0 : ℝ)) ((0 : ℝ), (0 : ℝ))]]).svgs.getD
              (SessionState.mk 0 [] 0).step []) "#00aa00"],
        (SessionState.mk 0 [] 0).canvas_key + 1⟩,
       some (Outcome.accepted (SessionState.mk 0 [] 0).step)) := by
have hd : stroke_dist (List.replicate NUM_POINTS ((0 : ℝ), (0 : ℝ)))
    ((Glyph.mk [List.replicate NUM_POINTS ((0 : ℝ), (0 : ℝ))]
      [[Seg.line ((0 : ℝ), (0 : ℝ)) ((0 : ℝ), (0 : ℝ))]]).strokes.getD
      (SessionState.mk 0 [] 0).step []) < SNAP_THRESHOLD := by
  show stroke_dist (List.replicate NUM_POINTS ((0 : ℝ), (0 : ℝ)))
      (List.replicate NUM_POINTS ((0 : ℝ), (0 : ℝ))) < SNAP_THRESHOLD
  rw [stroke_dist_replicate NUM_POINTS (by norm_num [NUM_POINTS]), euclid_self]
  norm_num [SNAP_THRESHOLD]
exact ⟨by norm_num, rfl, hd,
  submit_accept_snaps_reference
    (Glyph.mk [List.replicate NUM_POINTS ((0 : ℝ), (0 : ℝ))]
      [[Seg.line ((0 : ℝ), (0 : ℝ)) ((0 : ℝ), (0 : ℝ))]])
    (SessionState.mk 0 [] 0) [((0 : ℝ), (0 : ℝ))]
    (List.replicate NUM_POINTS ((0 : ℝ), (0 : ℝ))) (by norm_num) rfl hd⟩

/-! ## C3: a rejected submission changes nothing and reports the distance -/

/-- Claim C3: in state `Awaiting(i)`, a submission whose resampled distance to
reference stroke `i` is at least the threshold leaves the whole session state
(in particular `targetIndex` and `lockedStrokes`) unchanged, and the measured
distance is reported in the rejection outcome. -/
theorem submit_reject_frame (g : Glyph) (s : SessionState)
    (raw u_res : List Point)
    (hstep : s.step < g.strokes.length)
    (hres : resample_path raw NUM_POINTS = some u_res)
    (hdist : SNAP_THRESHOLD ≤ stroke_dist u_res (g.strokes.getD s.step [])) :
    submitStroke g s raw =
      (s, some (Outcome.rejected s.step
        (stroke_dist u_res (g.strokes.getD s.step [])))) := by
unfold submitStroke
rw [if_pos hstep, hres]
dsimp only
rw [if_neg (not_lt.mpr hdist)]

/-- Witness for C3: the same one-stroke glyph, but the user stroke resamples
to `NUM_POINTS` copies of (100, 0); its distance to the reference is
100 ≥ 45. -/
theorem submit_reject_frame_witness :
    (SessionState.mk 0 [] 0).step <
      (Glyph.mk [List.replicate NUM_POINTS ((0 : ℝ), (0 : ℝ))]
        [[Seg.line ((0 : ℝ), (0 : ℝ)) ((0 : ℝ), (0 : ℝ))]]).strokes.length ∧
    resample_path [((100 : ℝ), (0 : ℝ))] NUM_POINTS =
      some (List.replicate NUM_POINTS ((100 : ℝ), (0 : ℝ))) ∧
    SNAP_THRESHOLD ≤ stroke_dist (List.replicate NUM_POINTS ((100 : ℝ), (0 : ℝ)))
        ((Glyph.mk [List.replicate NUM_POINTS ((0 : ℝ), (0 : ℝ))]
          [[Seg.line ((0 : ℝ), (0 : ℝ)) ((0 : ℝ), (0 : ℝ))]]).strokes.getD
          (SessionState.mk 0 [] 0).step []) ∧
    submitStroke
        (Glyph.mk [List.replicate NUM_POINTS ((0 : ℝ), (0 : ℝ))]
          [[Seg.line ((0 : ℝ), (0 : ℝ)) ((0 : ℝ), (0 : ℝ))]])
        (SessionState.mk 0 [] 0) [((100 : ℝ), (0 : ℝ))] =
      (SessionState.mk 0 [] 0, some (Outcome.rejected (SessionState.mk 0 [] 0).step
        (stroke_dist (List.replicate NUM_POINTS ((100 : ℝ), (0 : ℝ)))
          ((Glyph.mk [List.replicate NUM_POINTS ((0 : ℝ), (0 : ℝ))]
            [[Seg.line ((0 : ℝ), (0 : ℝ)) ((0 : ℝ), (0 : ℝ))]]).strokes.getD
            (SessionState.mk 0 [] 0).step [])))) := by
have hd : SNAP_THRESHOLD ≤ stroke_dist (List.replicate NUM_POINTS ((100 : ℝ), (0 : ℝ)))
    ((Glyph.mk [List.replicate NUM_POINTS ((0 : ℝ), (0 : ℝ))]
      [[Seg.line ((0 : ℝ), (0 : ℝ)) ((0 : ℝ), (0 : ℝ))]]).strokes.getD
      (SessionState.mk 0 [] 0).step []) := by
  show SNAP_THRESHOLD ≤ stroke_dist (List.replicate NUM_POINTS ((100 : ℝ), (0 : ℝ)))
      (List.replicate NUM_POINTS ((0 : ℝ), (0 : ℝ)))
  rw [stroke_dist_replicate NUM_POINTS (by norm_num [NUM_POINTS])]
  rw [show euclid ((100 : ℝ), (0 : ℝ)) ((0 : ℝ), (0 : ℝ)) = Real.sqrt (100 ^ 2) by
    rw [euclid]; norm_num]
  rw [Real.sqrt_sq (by norm_num : (0 : ℝ) ≤ 100)]
  norm_num [SNAP_THRESHOLD]
exact ⟨by norm_num, rfl, hd,
  submit_reject_frame
    (Glyph.mk [List.replicate NUM_POINTS ((0 : ℝ), (0 : ℝ))]
      [[Seg.line ((0 : ℝ), (0 : ℝ)) ((0 : ℝ), (0 : ℝ))]])
    (SessionState.mk 0 [] 0) [((100 : ℝ), (0 : ℝ))]
    (List.replicate NUM_POINTS ((100 : ℝ), (0 : ℝ))) (by norm_num) rfl hd⟩

/-! ## C4: `resample` always returns exactly `n` points -/

/-- Claim C4: for every nonempty input path and every `n ≥ 1`,
`resample_path` succeeds and returns a stroke with exactly `n` points, in
all three branches (short input, zero total arc length, interpolation). -/
theorem resample_length (path_arr : List Point) (n : ℕ)
    (hp : 1 ≤ path_arr.length) (hn : 1 ≤ n) :
    (resample_path path_arr n).map List.length = some n := by
cases path_arr with
| nil => simp at hp
| cons p rest =>
  unfold resample_path
  dsimp only
  split
  · simp
  · split
    · simp
    · simp only [Option.map_some', List.length_map, linspace_length]

/-- Witness for C4 on a three-point path and `n = 7`. -/
theorem resample_length_witness :
    1 ≤ ([((0 : ℝ), (0 : ℝ)), (1, 0), (1, 3)] : List Point).length ∧ 1 ≤ 7 ∧
    (resample_path [((0 : ℝ), (0 : ℝ)), (1, 0), (1, 3)] 7).map List.length = some 7 :=
⟨by simp, by norm_num,
  resample_length [((0 : ℝ), (0 : ℝ)), (1, 0), (1, 3)] 7 (by simp) (by norm_num)⟩

/-! ## C6: the dissimilarity is the mean of per-index Euclidean distances -/

theorem sum_zipWith_euclid : ∀ (n : ℕ) (a b : List Point),
    a.length = n → b.length = n →
    (List.zipWith euclid a b).sum =
      ∑ i ∈ Finset.range n, euclid (a.getD i ((0 : ℝ), (0 : ℝ)))
        (b.getD i ((0 : ℝ), (0 : ℝ))) := by
intro n
induction n with
| zero =>
  intro a b ha hb
  rw [List.length_eq_zero] at ha hb
  subst ha; subst hb; simp
| succ m ih =>
  intro a b ha hb
  match a, b with
  | p :: a, q :: b =>
    simp only [List.zipWith_cons_cons, List.sum_cons]
    rw [Finset.sum_range_succ']
    simp only [List.getD_cons_succ, List.getD_cons_zero]
    rw [ih a b (by simpa using ha) (by simpa using hb)]
    ring

/-- Claim C6: for strokes `a` and `b` of the same point count `n ≥ 1`, the
computed dissimilarity equals the arithmetic mean over `i < n` of the
Euclidean distance between `a[i]` and `b[i]`. -/
theorem stroke_dist_eq_mean (a b : List Point) (n : ℕ)
    (ha : a.length = n) (hb : b.length = n) (hn : 1 ≤ n) :
    stroke_dist a b =
      (∑ i ∈ Finset.range n, euclid (a.getD i ((0 : ℝ), (0 : ℝ)))
        (b.getD i ((0 : ℝ), (0 : ℝ)))) / n := by
rw [stroke_dist, np_mean, sum_zipWith_euclid n a b ha hb, List.length_zipWith,
  ha, hb, min_self]

/-- Witness for C6 on two one-point strokes. -/
theorem stroke_dist_eq_mean_witness :
    ([((0 : ℝ), (0 : ℝ))] : List Point).length = 1 ∧
    ([((3 : ℝ), (4 : ℝ))] : List Point).length = 1 ∧ 1 ≤ 1 ∧
    stroke_dist [((0 : ℝ), (0 : ℝ))] [((3 : ℝ), (4 : ℝ))] =
      (∑ i ∈ Finset.range 1,
        euclid (([((0 : ℝ), (0 : ℝ))] : List Point).getD i ((0 : ℝ), (0 : ℝ)))
          (([((3 : ℝ), (4 : ℝ))] : List Point).getD i ((0 : ℝ), (0 : ℝ)))) /
        ((1 : ℕ) : ℝ) :=
⟨rfl, rfl, le_refl 1,
  stroke_dist_eq_mean [((0 : ℝ), (0 : ℝ))] [((3 : ℝ), (4 : ℝ))] 1 rfl rfl (le_refl 1)⟩

/-! ## C7: degenerate inputs of `resample` -/

/-- Claim C7: on a one-point path, `resample_path` returns `n` copies of that
point; on the empty path it fails (Python raises on `path_arr[0]`, modelled
as `none`) instead of returning a stroke. -/
theorem resample_degenerate :
    (∀ (p : Point) (n : ℕ), resample_path [p] n = some (List.replicate n p)) ∧
    (∀ n : ℕ, resample_path [] n = none) :=
⟨fun _ _ => rfl, fun _ => rfl⟩

/-! ## C9: whole-glyph grading with mismatched stroke counts -/

/-- Claim C9 (spec-modelled `gradeGlyph`): whenever the user attempt's stroke
count differs from the reference's, grading returns score 0 with feedback
"incorrect stroke count" and no per-stroke data, regardless of geometry. -/
theorem grade_mismatched_count (user reference : List (List Point))
    (sensitivity : ℝ) (h : user.length ≠ reference.length) :
    gradeGlyph user reference sensitivity =
      ⟨0, "incorrect stroke count", none⟩ := by
unfold gradeGlyph
rw [if_pos h]

/-- Witness for C9: one user stroke against a two-stroke reference. -/
theorem grade_mismatched_count_witness :
    ([[((0 : ℝ), (0 : ℝ))]] : List (List Point)).length ≠
      ([[((0 : ℝ), (0 : ℝ))], [((1 : ℝ), (1 : ℝ))]] : List (List Point)).length ∧
    gradeGlyph [[((0 : ℝ), (0 : ℝ))]]
        [[((0 : ℝ), (0 : ℝ))], [((1 : ℝ), (1 : ℝ))]] 3 =
      ⟨0, "incorrect stroke count", none⟩ :=
⟨by simp, grade_mismatched_count _ _ 3 (by simp)⟩

/-! ## C10: submissions after completion are ignored -/

/-- Claim C10: if a stroke is submitted while the session is already complete
(`targetIndex = totalStrokes`), the state is unchanged and no outcome is
produced; the reference stroke list is never indexed. -/
theorem submit_complete_ignored (g : Glyph) (s : SessionState)
    (raw : List Point) (h : s.step = g.strokes.length) :
    submitStroke g s raw = (s, none) := by
unfold submitStroke
rw [if_neg (by omega)]

/-- Witness for C10: a completed one-stroke session ignores a new stroke. -/
theorem submit_complete_ignored_witness :
    (SessionState.mk 1 [] 0).step =
      (Glyph.mk [List.replicate 20 ((0 : ℝ), (0 : ℝ))] [[]]).strokes.length ∧
    submitStroke (Glyph.mk [List.replicate 20 ((0 : ℝ), (0 : ℝ))] [[]])
        (SessionState.mk 1 [] 0) [((5 : ℝ), (5 : ℝ))] =
      (SessionState.mk 1 [] 0, none) :=
⟨by simp, submit_complete_ignored _ _ _ (by simp)⟩

/-! ## C5: reference-side sampling vs user-side resampling -/

theorem resample_path_cons_cons (p q : Point) (rest : List Point) (n : ℕ)
    (hne : (cum_dists (p :: q :: rest)).getLastD 0 ≠ 0) :
    resample_path (p :: q :: rest) n =
      some ((linspace 0 ((cum_dists (p :: q :: rest)).getLastD 0) n).map (fun t =>
        (interp t (cum_dists (p :: q :: rest)) ((p :: q :: rest).map Prod.fst),
         interp t (cum_dists (p :: q :: rest)) ((p :: q :: rest).map Prod.snd)))) := by
simp only [resample_path]
rw [if_neg (by simp only [List.length_cons]; omega)]
rw [if_neg hne]

theorem resample_path_cons_cons_zero (p q : Point) (rest : List Point) (n : ℕ)
    (hz : (cum_dists (p :: q :: rest)).getLastD 0 = 0) :
    resample_path (p :: q :: rest) n = some (List.replicate n p) := by
simp only [resample_path]
rw [if_neg (by simp only [List.length_cons]; omega)]
rw [if_pos hz]

theorem interp_two (x x0 x1 f0 f1 : ℝ) :
    interp x [x0, x1] [f0, f1] =
      if x ≤ x0 then f0
      else if x ≤ x1 then f0 + (x - x0) * (f1 - f0) / (x1 - x0)
      else f1 := by
simp only [interp]

theorem euclid_eq_zero (p q : Point) (h : euclid p q = 0) : q = p := by
rw [euclid, Real.sqrt_eq_zero'] at h
have h1 : (q.1 - p.1) ^ 2 = 0 :=
  le_antisymm (by nlinarith [sq_nonneg (q.2 - p.2)]) (sq_nonneg _)
have h2 : (q.2 - p.2) ^ 2 = 0 :=
  le_antisymm (by nlinarith [sq_nonneg (q.1 - p.1)]) (sq_nonneg _)
exact Prod.ext_iff.mpr
  ⟨sub_eq_zero.mp (sq_eq_zero_iff.mp h1), sub_eq_zero.mp (sq_eq_zero_iff.mp h2)⟩

theorem euclid_nonneg (p q : Point) : 0 ≤ euclid p q := by
rw [euclid]; exact Real.sqrt_nonneg _

theorem pathPoint_single (s : Seg) (pos : ℝ) (h0 : pos ≠ 0) (h1 : pos ≠ 1)
    (hle : pos ≤ 1) (hL : segLength s ≠ 0) :
    pathPoint [s] pos = segPoint s pos := by
simp only [pathPoint]
rw [if_neg h0, if_neg h1]
simp only [pathPointLoop, totalLength, List.map_cons, List.map_nil,
  List.sum_cons, List.sum_nil, add_zero]
rw [div_self hL]
rw [if_pos (by linarith)]
norm_num

theorem cex_cubic_length :
    segLength (Seg.cubic ((0 : ℝ), (0 : ℝ)) ((0 : ℝ), (0 : ℝ))
      ((1 : ℝ), (0 : ℝ)) ((1 : ℝ), (0 : ℝ))) = 1 := by
simp only [segLength]
have hfun : (fun t : ℝ => Real.sqrt
      ((bezD (((0 : ℝ), (0 : ℝ)) : Point).1 (((0 : ℝ), (0 : ℝ)) : Point).1
          (((1 : ℝ), (0 : ℝ)) : Point).1 (((1 : ℝ), (0 : ℝ)) : Point).1 t) ^ 2 +
        (bezD (((0 : ℝ), (0 : ℝ)) : Point).2 (((0 : ℝ), (0 : ℝ)) : Point).2
          (((1 : ℝ), (0 : ℝ)) : Point).2 (((1 : ℝ), (0 : ℝ)) : Point).2 t) ^ 2)) =
    fun t : ℝ => Real.sqrt ((6 * t - 6 * t ^ 2) ^ 2) := by
  funext t
  congr 1
  dsimp only [bezD]
  ring
rw [hfun]
have h2 : Set.EqOn (fun t : ℝ => Real.sqrt ((6 * t - 6 * t ^ 2) ^ 2))
    (fun t : ℝ => 6 * t - 6 * t ^ 2) (Set.uIcc (0 : ℝ) 1) := by
  intro t ht
  rw [Set.uIcc_of_le (by norm_num : (0 : ℝ) ≤ 1)] at ht
  exact Real.sqrt_sq (by nlinarith [mul_nonneg ht.1 (sub_nonneg.mpr ht.2)])
rw [intervalIntegral.integral_congr h2]
rw [intervalIntegral.integral_sub
  ((Continuous.intervalIntegrable (by continuity) 0 1))
  ((Continuous.intervalIntegrable (by continuity) 0 1))]
rw [intervalIntegral.integral_const_mul, intervalIntegral.integral_const_mul,
  integral_id, integral_pow]
norm_num

/-- Claim C5, refuted: the reference-side sampling of `fetch_kanji_data` is
uniform in the path's own parameterization (`p_obj.point(t)` assigns each
segment a parameter sub-interval proportional to its arc-length fraction and
evaluates the segment at its native parameter), so it is NOT the arc-length
resampling applied to the user's stroke.  The underlying geometry here is
the straight unit segment from (0,0) to (1,0): the reference SVG path draws
it as the cubic Bézier with collinear control points (0,0), (0,0), (1,0),
(1,0), traversed monotonically as x(t) = 3t² − 2t³, while the user side
sees its polyline [(0,0), (1,0)].  Arc-length resampling puts sample 1 at
(1/19, 0); the path sampling evaluates the cubic at its native parameter
1/19, giving (55/6859, 0). -/
theorem sampling_not_equivalent :
    resample_path [((0 : ℝ), (0 : ℝ)), ((1 : ℝ), (0 : ℝ))] NUM_POINTS ≠
      some (fetch_resample
        [Seg.cubic ((0 : ℝ), (0 : ℝ)) ((0 : ℝ), (0 : ℝ))
          ((1 : ℝ), (0 : ℝ)) ((1 : ℝ), (0 : ℝ))]) := by
have h1 : euclid ((0 : ℝ), (0 : ℝ)) ((1 : ℝ), (0 : ℝ)) = 1 := by
  rw [euclid]; norm_num
have hdists : dists [((0 : ℝ), (0 : ℝ)), ((1 : ℝ), (0 : ℝ))] = [1] := by
  rw [show dists [((0 : ℝ), (0 : ℝ)), ((1 : ℝ), (0 : ℝ))] =
      [euclid ((0 : ℝ), (0 : ℝ)) ((1 : ℝ), (0 : ℝ))] from rfl, h1]
have hcum : cum_dists [((0 : ℝ), (0 : ℝ)), ((1 : ℝ), (0 : ℝ))] = [0, 1] := by
  rw [cum_dists, hdists]
  norm_num [List.scanl]
have hlast : (cum_dists [((0 : ℝ), (0 : ℝ)), ((1 : ℝ), (0 : ℝ))]).getLastD 0
    = 1 := by
  rw [hcum]; rfl
intro h
rw [resample_path_cons_cons _ _ _ _ (by rw [hlast]; norm_num)] at h
rw [hlast, hcum] at h
simp only [List.map_cons, List.map_nil] at h
have h' := Option.some.inj h
have hidx := congrArg (fun l : List Point => l[1]?) h'
simp only [linspace, fetch_resample, List.map_map] at hidx
rw [List.getElem?_map, List.getElem?_map,
  List.getElem?_range (by norm_num [NUM_POINTS] : 1 < NUM_POINTS)] at hidx
simp only [Option.map_some', Function.comp] at hidx
have hfst := congrArg Prod.fst (Option.some.inj hidx)
dsimp only at hfst
rw [show (0 : ℝ) + ((1 : ℕ) : ℝ) * ((1 : ℝ) - 0) / ((NUM_POINTS : ℝ) - 1) =
    1 / 19 by norm_num [NUM_POINTS]] at hfst
rw [show interp ((1 : ℝ) / 19) [0, 1]
      [(((0 : ℝ), (0 : ℝ)) : Point).1, (((1 : ℝ), (0 : ℝ)) : Point).1] = 1 / 19 by
    rw [interp_two]
    rw [if_neg (by norm_num), if_pos (by norm_num)]
    norm_num] at hfst
rw [show pathPoint
      [Seg.cubic ((0 : ℝ), (0 : ℝ)) ((0 : ℝ), (0 : ℝ))
        ((1 : ℝ), (0 : ℝ)) ((1 : ℝ), (0 : ℝ))]
      (((1 : ℕ) : ℝ) / ((NUM_POINTS : ℝ) - 1)) =
    (bez 0 0 1 1 ((1 : ℝ) / 19), bez 0 0 0 0 ((1 : ℝ) / 19)) by
    rw [show (((1 : ℕ) : ℝ) / ((NUM_POINTS : ℝ) - 1)) = 1 / 19 by
      norm_num [NUM_POINTS]]
    rw [pathPoint_single _ _ (by norm_num) (by norm_num) (by norm_num)
      (by rw [cex_cubic_length]; norm_num)]
    rfl] at hfst
dsimp only at hfst
rw [bez] at hfst
norm_num at hfst

/-- Claim C5, amended: `Path.point` of `svgpathtools` gives each segment a
parameter sub-interval proportional to its arc-length fraction and evaluates
the segment at its own native parameter, so the reference sampling is
arc-length-equidistant only when every segment's native parameter is
proportional to arc length.  For a path consisting of a single line segment
of nonzero length that holds, and the two samplings agree exactly; for cubic
Bézier segments (the KanjiVG case) the native parameter is not arc length
and they differ (see the counterexample). -/
theorem single_segment_sampling_agree (p q : Point)
    (he : euclid p q ≠ 0) :
    resample_path (polyline [Seg.line p q]) NUM_POINTS =
      some (fetch_resample [Seg.line p q]) := by
have hpoly : polyline [Seg.line p q] = [p, q] := rfl
have hdists : dists [p, q] = [euclid p q] := rfl
have hcum : cum_dists [p, q] = [0, euclid p q] := by
  rw [cum_dists, hdists]
  simp [List.scanl]
have hlast : (cum_dists [p, q]).getLastD 0 = euclid p q := by rw [hcum]; rfl
have hpos : 0 < euclid p q := lt_of_le_of_ne (euclid_nonneg p q) (Ne.symm he)
rw [hpoly]
rw [resample_path_cons_cons _ _ _ _ (by rw [hlast]; exact he)]
rw [hlast, hcum]
simp only [List.map_cons, List.map_nil]
refine congrArg some ?_
rw [fetch_resample, linspace, List.map_map]
apply List.map_congr_left
intro i hi
have hi19 : i ≤ 19 := by
  have hr := List.mem_range.mp hi
  simp only [NUM_POINTS] at hr
  omega
have hi19r : (i : ℝ) ≤ 19 := by exact_mod_cast hi19
have h19 : ((NUM_POINTS : ℝ) - 1) = 19 := by norm_num [NUM_POINTS]
have hcoord : ∀ a b : ℝ,
    interp ((0 : ℝ) + (i : ℝ) * (euclid p q - 0) / ((NUM_POINTS : ℝ) - 1))
      [0, euclid p q] [a, b] =
    a + ((i : ℝ) / ((NUM_POINTS : ℝ) - 1)) * (b - a) := by
  intro a b
  rw [interp_two, h19]
  rcases Nat.eq_zero_or_pos i with rfl | hipos
  · rw [if_pos (by norm_num)]
    norm_num
  · have hiposr : (0 : ℝ) < (i : ℝ) := by exact_mod_cast hipos
    rw [if_neg (by nlinarith), if_pos (by nlinarith)]
    field_simp
    ring
have hfetch : pathPoint [Seg.line p q] ((i : ℝ) / ((NUM_POINTS : ℝ) - 1)) =
    (p.1 + ((i : ℝ) / ((NUM_POINTS : ℝ) - 1)) * (q.1 - p.1),
     p.2 + ((i : ℝ) / ((NUM_POINTS : ℝ) - 1)) * (q.2 - p.2)) := by
  rw [h19]
  rcases Nat.eq_zero_or_pos i with rfl | hipos
  · rw [show ((0 : ℕ) : ℝ) / 19 = 0 by norm_num]
    simp only [pathPoint]
    rw [if_pos trivial]
    simp only [segPoint]
  · have hiposr : (0 : ℝ) < (i : ℝ) := by exact_mod_cast hipos
    rcases eq_or_ne i 19 with rfl | hi19ne
    · rw [show ((19 : ℕ) : ℝ) / 19 = 1 by norm_num]
      simp only [pathPoint]
      rw [if_neg (by norm_num), if_pos trivial]
      simp only [List.getLastD_nil, segPoint]
    · have hne0 : (i : ℝ) / 19 ≠ 0 := ne_of_gt (div_pos hiposr (by norm_num))
      have hne1 : (i : ℝ) / 19 ≠ 1 := by
        intro hcontra
        rw [div_eq_one_iff_eq (by norm_num : (19 : ℝ) ≠ 0)] at hcontra
        exact hi19ne (by exact_mod_cast hcontra)
      have hle1 : (i : ℝ) / 19 ≤ 1 := by
        rw [div_le_one (by norm_num : (0 : ℝ) < 19)]
        exact hi19r
      rw [pathPoint_single _ _ hne0 hne1 hle1
        (by simp only [segLength]; exact he)]
      simp only [segPoint]
simp only [Function.comp_apply]
rw [hcoord p.1 q.1, hcoord p.2 q.2, hfetch]

/-- Witness for the amended C5 theorem at the unit horizontal segment. -/
theorem single_segment_sampling_agree_witness :
    euclid ((0 : ℝ), (0 : ℝ)) ((1 : ℝ), (0 : ℝ)) ≠ 0 ∧
    resample_path (polyline [Seg.line ((0 : ℝ), (0 : ℝ)) ((1 : ℝ), (0 : ℝ))])
        NUM_POINTS =
      some (fetch_resample [Seg.line ((0 : ℝ), (0 : ℝ)) ((1 : ℝ), (0 : ℝ))]) := by
have he : euclid ((0 : ℝ), (0 : ℝ)) ((1 : ℝ), (0 : ℝ)) ≠ 0 := by
  rw [show euclid ((0 : ℝ), (0 : ℝ)) ((1 : ℝ), (0 : ℝ)) = 1 by
    rw [euclid]; norm_num]
  norm_num
exact ⟨he, single_segment_sampling_agree _ _ he⟩

/-! ## C8: resampling is the identity on already-equidistant strokes -/

theorem scanl_add_replicate : ∀ (m : ℕ) (a d : ℝ),
    List.scanl (fun x y => x + y) a (List.replicate m d) =
      (List.range (m + 1)).map (fun i : ℕ => a + (i : ℝ) * d) := by
intro m
induction m with
| zero =>
  intro a d
  rw [show List.range 1 = [0] from rfl]
  simp
| succ m ih =>
  intro a d
  rw [List.replicate_succ, List.scanl_cons, ih (a + d) d]
  conv_rhs => rw [List.range_succ_eq_map]
  simp only [List.map_cons, List.map_map]
  rw [List.singleton_append]
  congr 1
  · norm_num
  · apply List.map_congr_left
    intro i _
    simp only [Function.comp_apply]
    push_cast
    ring

theorem map_range_getLastD (f : ℕ → ℝ) (m : ℕ) :
    ((List.range (m + 1)).map f).getLastD 0 = f m := by
rw [List.range_succ, List.map_append, List.map_cons, List.map_nil,
  List.getLastD_concat]

theorem all_eq_of_dists_zero : ∀ (rest : List Point) (p : Point),
    dists (p :: rest) = List.replicate rest.length 0 →
    p :: rest = List.replicate (rest.length + 1) p := by
intro rest
induction rest with
| nil => intro p _; rfl
| cons q rest ih =>
  intro p h
  rw [show dists (p :: q :: rest) = euclid p q :: dists (q :: rest) from rfl,
    show (q :: rest).length = rest.length + 1 from rfl, List.replicate_succ] at h
  obtain ⟨h1, h2⟩ := List.cons_eq_cons.mp h
  have hq : q = p := euclid_eq_zero p q h1
  subst hq
  rw [List.replicate_succ]
  rw [List.cons_eq_cons]
  exact ⟨rfl, ih q h2⟩

theorem interp_knot : ∀ (xp fp : List ℝ) (k : ℕ), k < xp.length →
    fp.length = xp.length → List.Pairwise (fun a b => a < b) xp →
    interp (xp.getD k 0) xp fp = fp.getD k 0 := by
intro xp
induction xp with
| nil => intro fp k hk; simp at hk
| cons x0 xp ih =>
  intro fp k hk hlen hpw
  cases fp with
  | nil => simp at hlen
  | cons f0 fp =>
    cases xp with
    | nil =>
      cases fp with
      | cons f1 fp2 => simp at hlen
      | nil =>
        have hk0 : k = 0 := by simp at hk; omega
        subst hk0
        rfl
    | cons x1 xp =>
      cases fp with
      | nil => simp at hlen
      | cons f1 fp =>
        have h01 : x0 < x1 := (List.pairwise_cons.mp hpw).1 x1 (by simp)
        have hinterp : ∀ x : ℝ, interp x (x0 :: x1 :: xp) (f0 :: f1 :: fp) =
            if x ≤ x0 then f0
            else if x ≤ x1 then f0 + (x - x0) * (f1 - f0) / (x1 - x0)
            else interp x (x1 :: xp) (f1 :: fp) := fun x => by
          simp only [interp]
        rcases k with _ | k1
        · simp only [List.getD_cons_zero]
          rw [hinterp, if_pos le_rfl]
        · rcases k1 with _ | j
          · simp only [List.getD_cons_succ, List.getD_cons_zero]
            rw [hinterp, if_neg (not_le.mpr h01), if_pos le_rfl]
            rw [mul_comm, mul_div_assoc, div_self (ne_of_gt (sub_pos.mpr h01)),
              mul_one]
            ring
          · simp only [List.getD_cons_succ]
            have hkb : j + 1 < (x1 :: xp).length := by
              simp only [List.length_cons] at hk ⊢
              omega
            have hjb : j < xp.length := by
              simp only [List.length_cons] at hk
              omega
            have hmemx : xp.getD j 0 ∈ xp := by
              rw [List.getD_eq_getElem _ _ hjb]
              exact List.getElem_mem hjb
            have hx0lt : x0 < xp.getD j 0 :=
              (List.pairwise_cons.mp hpw).1 _ (List.mem_cons_of_mem _ hmemx)
            have hx1lt : x1 < xp.getD j 0 :=
              (List.pairwise_cons.mp (List.pairwise_cons.mp hpw).2).1 _ hmemx
            rw [hinterp, if_neg (not_le.mpr hx0lt), if_neg (not_le.mpr hx1lt)]
            have hrec := ih (f1 :: fp) (j + 1) hkb (by simpa using hlen)
              (List.pairwise_cons.mp hpw).2
            simpa using hrec

/-- Claim C8: for a stroke whose consecutive points are equally spaced in arc
length (`dists s` is constant), resampling to the stroke's own point count
returns the stroke unchanged — exactly, since the embedding computes in exact
real arithmetic (the spec's "within floating-point tolerance" allows this). -/
theorem resample_idempotent_equidistant (s : List Point) (n : ℕ) (d : ℝ)
    (hlen : s.length = n) (hn : 1 ≤ n)
    (hd : dists s = List.replicate (n - 1) d) :
    resample_path s n = some s := by
cases s with
| nil =>
  rw [List.length_nil] at hlen
  omega
| cons p rest =>
  cases rest with
  | nil =>
    have hn1 : n = 1 := by simpa using hlen.symm
    subst hn1
    rfl
  | cons q rest' =>
    have hlen2 : rest'.length + 2 = n := by simpa [add_assoc] using hlen
    have hhead : euclid p q = d := by
      have h := hd
      rw [show dists (p :: q :: rest') = euclid p q :: dists (q :: rest') from rfl,
        show n - 1 = rest'.length + 1 by omega, List.replicate_succ] at h
      exact (List.cons_eq_cons.mp h).1
    have hdnn : 0 ≤ d := hhead ▸ euclid_nonneg p q
    rcases hdnn.lt_or_eq with hpos | hzero
    · -- positive spacing: the interpolation branch reproduces the points
      have hcum : cum_dists (p :: q :: rest') =
          (List.range n).map (fun i : ℕ => (i : ℝ) * d) := by
        rw [cum_dists, hd, scanl_add_replicate, show n - 1 + 1 = n by omega]
        exact List.map_congr_left (fun i _ => by ring)
      have hlast : (cum_dists (p :: q :: rest')).getLastD 0 =
          ((n - 1 : ℕ) : ℝ) * d := by
        rw [hcum]
        conv_lhs => rw [show n = (n - 1) + 1 by omega]
        rw [map_range_getLastD]
      have hn1pos : (0 : ℝ) < ((n - 1 : ℕ) : ℝ) := by
        have : 1 ≤ n - 1 := by omega
        exact_mod_cast Nat.lt_of_lt_of_le Nat.zero_lt_one this
      have hne : ((n - 1 : ℕ) : ℝ) * d ≠ 0 := ne_of_gt (mul_pos hn1pos hpos)
      rw [resample_path_cons_cons _ _ _ _ (by rw [hlast]; exact hne)]
      rw [hlast, hcum]
      have hcastn : ((n : ℝ) - 1) = ((n - 1 : ℕ) : ℝ) := by
        rw [Nat.cast_sub hn, Nat.cast_one]
      have hlin : linspace 0 (((n - 1 : ℕ) : ℝ) * d) n =
          (List.range n).map (fun i : ℕ => (i : ℝ) * d) := by
        rw [linspace]
        apply List.map_congr_left
        intro i _
        rw [sub_zero, zero_add, hcastn]
        rw [mul_comm ((n - 1 : ℕ) : ℝ) d, ← mul_assoc, mul_div_assoc,
          div_self (ne_of_gt hn1pos), mul_one]
      rw [hlin, List.map_map]
      refine congrArg some ?_
      apply List.ext_getElem
      · simp only [List.length_map, List.length_range]
        omega
      · intro k h1 h2
        rw [List.getElem_map, List.getElem_range]
        simp only [Function.comp_apply]
        have hkn : k < n := by
          simpa using h1
        have hxplen : ((List.range n).map (fun i : ℕ => (i : ℝ) * d)).length = n := by
          simp
        have hgetD : ((List.range n).map (fun i : ℕ => (i : ℝ) * d)).getD k 0 =
            (k : ℝ) * d := by
          rw [List.getD_eq_getElem _ _ (by rw [hxplen]; exact hkn),
            List.getElem_map, List.getElem_range]
        have hpw : List.Pairwise (fun a b => a < b)
            ((List.range n).map (fun i : ℕ => (i : ℝ) * d)) := by
          rw [List.pairwise_map]
          exact (List.pairwise_lt_range n).imp (fun hab => by
            have : ((_ : ℕ) : ℝ) < _ := Nat.cast_lt.mpr hab
            exact mul_lt_mul_of_pos_right this hpos)
        have hfst : (List.map Prod.fst (p :: q :: rest')).length =
            ((List.range n).map (fun i : ℕ => (i : ℝ) * d)).length := by
          rw [hxplen, List.length_map]
          exact hlen
        have hsnd : (List.map Prod.snd (p :: q :: rest')).length =
            ((List.range n).map (fun i : ℕ => (i : ℝ) * d)).length := by
          rw [hxplen, List.length_map]
          exact hlen
        rw [← hgetD,
          interp_knot _ _ k (by rw [hxplen]; exact hkn) hfst hpw,
          interp_knot _ _ k (by rw [hxplen]; exact hkn) hsnd hpw]
        rw [List.getD_eq_getElem _ _ (by rw [List.length_map]; exact h2),
          List.getD_eq_getElem _ _ (by rw [List.length_map]; exact h2),
          List.getElem_map, List.getElem_map]
    · -- zero spacing: all points coincide and the zero-length branch fires
      have hzero' : d = 0 := hzero.symm
      subst hzero'
      have hrep : p :: q :: rest' =
          List.replicate ((q :: rest').length + 1) p := by
        apply all_eq_of_dists_zero
        rw [hd, show (q :: rest').length = rest'.length + 1 from rfl]
        rw [show n - 1 = rest'.length + 1 by omega]
      have hlast0 : (cum_dists (p :: q :: rest')).getLastD 0 = 0 := by
        rw [cum_dists, hd, scanl_add_replicate]
        conv_lhs => rw [show n - 1 + 1 = (n - 1) + 1 from rfl]
        rw [map_range_getLastD]
        ring
      rw [resample_path_cons_cons_zero _ _ _ _ hlast0]
      refine congrArg some ?_
      conv_rhs => rw [hrep]
      rw [show (q :: rest').length + 1 = n by simpa [add_assoc] using hlen]

/-- Witness for C8 on the equally spaced three-point stroke
(0,0), (1,0), (2,0) with spacing 1. -/
theorem resample_idempotent_equidistant_witness :
    ([((0 : ℝ), (0 : ℝ)), ((1 : ℝ), (0 : ℝ)), ((2 : ℝ), (0 : ℝ))] : List Point).length
      = 3 ∧ 1 ≤ 3 ∧
    dists [((0 : ℝ), (0 : ℝ)), ((1 : ℝ), (0 : ℝ)), ((2 : ℝ), (0 : ℝ))] =
      List.replicate (3 - 1) 1 ∧
    resample_path [((0 : ℝ), (0 : ℝ)), ((1 : ℝ), (0 : ℝ)), ((2 : ℝ), (0 : ℝ))] 3 =
      some [((0 : ℝ), (0 : ℝ)), ((1 : ℝ), (0 : ℝ)), ((2 : ℝ), (0 : ℝ))] := by
have hd : dists [((0 : ℝ), (0 : ℝ)), ((1 : ℝ), (0 : ℝ)), ((2 : ℝ), (0 : ℝ))] =
    List.replicate (3 - 1) 1 := by
  rw [show dists [((0 : ℝ), (0 : ℝ)), ((1 : ℝ), (0 : ℝ)), ((2 : ℝ), (0 : ℝ))] =
      [euclid ((0 : ℝ), (0 : ℝ)) ((1 : ℝ), (0 : ℝ)),
       euclid ((1 : ℝ), (0 : ℝ)) ((2 : ℝ), (0 : ℝ))] from rfl]
  rw [show euclid ((0 : ℝ), (0 : ℝ)) ((1 : ℝ), (0 : ℝ)) = 1 by rw [euclid]; norm_num]
  rw [show euclid ((1 : ℝ), (0 : ℝ)) ((2 : ℝ), (0 : ℝ)) = 1 by rw [euclid]; norm_num]
  rfl
exact ⟨rfl, by norm_num, hd,
  resample_idempotent_equidistant _ 3 1 rfl (by norm_num) hd⟩

end Kanji
